import Mathlib

/-!
Verification of the glob-import expansion plugin (`src/lib.rs`, `src/utils.rs`).

The development shallowly embeds the plugin's data model and operations:

* Rust `PathBuf` values become `OsPath` (a root flag plus a list of `OsStr`
  components, where an `OsStr` is either valid text or opaque non-UTF-8
  bytes), which is enough to express `parent`, `join`, `strip_prefix` and
  `to_str` as the plugin uses them.
* The pieces of the `swc` AST the plugin reads or builds become small
  inductive types (`ImportSpecifier`, `ImportDecl`, `Expr`, `VarDecl`,
  `ModuleItem`).  Fields the plugin never inspects (spans, raw text) are
  omitted; `ExprOrSpread` is collapsed to `Expr` because the plugin never
  sets the spread flag.
* `Rc<RefCell<usize>>` counter state is threaded explicitly.
* A Rust `unwrap`/`expect` abort is the `panics` value of `PanicOr`.
* The external glob predicate `is_glob` and the `transform_import_decl`
  function (its module is not part of the inspected sources) are parameters.
* A `HashMap` is embedded as the association list of its entries in one
  possible iteration order; `std::collections::HashMap` does not fix that
  order, which is exactly what the order-dependence theorem exhibits.
-/

/-- An operating-system string: either valid UTF-8 text or opaque non-UTF-8
byte content.  Models Rust `OsStr`/`OsString`. -/
inductive OsStr where
  | valid (s : String)
  | invalid (bytes : List Nat)
deriving DecidableEq, Repr

/-- `OsStr::to_str`: the text of the string when it is valid UTF-8. -/
def OsStr.toStr : OsStr → Option String
  | .valid s => some s
  | .invalid _ => none

/-- Model of Rust `Path`/`PathBuf`: whether the path has a root (`/`) plus its
normal components in order.  `CurDir`/`ParentDir` components are not
distinguished from normal ones; the plugin never constructs them. -/
structure OsPath where
  hasRoot : Bool
  comps : List OsStr
deriving DecidableEq, Repr

/-- `Path::parent`: drops the last component; `None` for an empty or
root-only path, exactly as in Rust (`Path::new("/").parent() == None`,
`Path::new("").parent() == None`). -/
def OsPath.parent : OsPath → Option OsPath
  | ⟨_, []⟩ => none
  | ⟨r, cs⟩ => some ⟨r, cs.dropLast⟩

/-- `Path::join`: an absolute right operand replaces the whole path,
otherwise its components are appended. -/
def OsPath.join (p q : OsPath) : OsPath :=
  if q.hasRoot then q else ⟨p.hasRoot, p.comps ++ q.comps⟩

/-- Boolean component-list prefix test (Rust compares components for
equality one by one). -/
def compsLeadIn : List OsStr → List OsStr → Bool
  | [], _ => true
  | _ :: _, [] => false
  | a :: as, b :: bs => decide (a = b) && compsLeadIn as bs

/-- `Path::strip_prefix base`: removes `base` from the front of the path,
comparing components (the root directory counts as a component); `none` when
`base` is not a component-wise front of the path. -/
def OsPath.stripBase (p base : OsPath) : Option OsPath :=
  if base.hasRoot then
    if p.hasRoot && compsLeadIn base.comps p.comps then
      some ⟨false, p.comps.drop base.comps.length⟩
    else none
  else
    match base.comps with
    | [] => some p
    | _ :: _ =>
      if !p.hasRoot && compsLeadIn base.comps p.comps then
        some ⟨false, p.comps.drop base.comps.length⟩
      else none

/-- `Path::to_str`: valid text of the whole path, when every component is
valid UTF-8; components are joined by `/`, with a leading `/` for a rooted
path. -/
def OsPath.toStr (p : OsPath) : Option String := do
  let parts ← p.comps.mapM OsStr.toStr
  pure ((if p.hasRoot then ("/") else ("")) ++ String.intercalate ("/") parts)

/-- Parsing a text path back into components, as Rust does when a `&str` is
passed to `Path::join`. -/
def pathOfString (s : String) : OsPath :=
  ⟨s.startsWith ("/"), ((s.splitOn ("/")).filter (fun c => c ≠ "")).map OsStr.valid⟩

/-- Result of a Rust computation that may abort the process (`unwrap`,
`expect`). -/
inductive PanicOr (α : Type) where
  | panics
  | ok (val : α)
deriving DecidableEq, Repr

/-- `struct ImportPaths` from `lib.rs`. -/
structure ImportPaths where
  absolute_path : String
  imported_path : String
deriving DecidableEq, Repr

/-- `ImportGlobArrayPlugin::get_paths` from `lib.rs`.  `cwd` and `filename`
are the plugin's fields; `path` is the matched file path.  The
`filename.parent().unwrap()` of the source is the `panics` case; the inner
`Option` is the source's return value, with `?` propagation on
`strip_prefix(..).ok()`, both `to_str()` calls, and the `starts_with('.')`
choice for `imported_path`. -/
def get_paths (cwd filename path : OsPath) : PanicOr (Option ImportPaths) :=
  match filename.parent with
  | none => .panics
  | some par =>
    let current_dir := cwd.join par
    .ok (do
      let rel ← path.stripBase current_dir
      let relative_path ← rel.toStr
      let absolute_path ← (current_dir.join (pathOfString relative_path)).toStr
      let imported_path :=
        if relative_path.startsWith (".") then relative_path
        else ("./") ++ relative_path
      pure ⟨absolute_path, imported_path⟩)

/-- `ImportGlobArrayPlugin::next_id`: increments the shared counter, then
formats `starting_id` followed by the new counter value.  Returns the
identifier together with the new counter state. -/
def next_id (starting_id : String) (id_counter : Nat) : String × Nat :=
  let new_counter := id_counter + 1
  (starting_id ++ Nat.repr new_counter, new_counter)

/-- Iterating `next_id` from a given counter state: the list of identifiers
returned by the first `k` calls and the final counter. -/
def run_next_ids (starting_id : String) (id_counter : Nat) : Nat → List String × Nat
  | 0 => ([], id_counter)
  | k + 1 =>
    let prev := run_next_ids starting_id id_counter k
    let step := next_id starting_id prev.2
    (prev.1 ++ [step.1], step.2)

/-- `const IMPORT_META_NAME` from `lib.rs`. -/
def IMPORT_META_NAME : String := "_importMeta"

/-- `ModuleExportName` (the imported name of a named specifier): an
identifier or a string literal. -/
inductive ModuleExportName where
  | identName (sym : String)
  | strName (value : String)
deriving DecidableEq, Repr

/-- The three `ImportSpecifier` variants.  Each carries its local binding
name; a named specifier also carries its optional written imported name
(`none` is the shorthand `import { x }`, where the imported name is not
written separately from the local name). -/
inductive ImportSpecifier where
  | defaultSpec (localName : String)
  | named (localName : String) (imported : Option ModuleExportName)
  | nspace (localName : String)
deriving DecidableEq, Repr

/-- The part of `ImportDecl` the plugin reads: the source specifier string
and the specifier list. -/
structure ImportDecl where
  src : String
  specifiers : List ImportSpecifier
deriving DecidableEq, Repr

/-- Binding patterns; the plugin only builds identifier patterns. -/
inductive Pat where
  | ident (sym : String)
deriving DecidableEq, Repr

/-- The expressions the plugin builds: identifier references, string
literals, object literals with identifier-keyed string properties, and array
literals whose element slots are optional (`Vec<Option<ExprOrSpread>>`;
the plugin never sets the spread flag, so a slot is just an `Expr`). -/
inductive Expr where
  | identE (sym : String)
  | strLit (value : String)
  | object (props : List (String × Expr))
  | array (elems : List (Option Expr))
deriving Repr

/-- `VarDeclKind`; the plugin only uses `Const`. -/
inductive VarDeclKind where
  | constKind
  | letKind
  | varKind
deriving DecidableEq, Repr

/-- One declarator of a `var`/`let`/`const` statement. -/
structure VarDeclarator where
  name : Pat
  init : Option Expr
  definite : Bool
deriving Repr

/-- A `var`/`let`/`const` declaration statement. -/
structure VarDecl where
  kind : VarDeclKind
  declare : Bool
  decls : List VarDeclarator
deriving Repr

/-- The module items the plugin distinguishes: an import declaration, a
variable-declaration statement, and (opaque) everything else. -/
inductive ModuleItem where
  | moduleDeclImport (d : ImportDecl)
  | otherModuleDecl (tag : Nat)
  | stmtDeclVar (v : VarDecl)
  | otherStmt (tag : Nat)
deriving Repr

/-- The result type of `transform_import_decl` (its module is not among the
inspected sources): generated import declarations and two groups of constant
declarations.  Per the spec the first `VarDecl` group aggregates value
bindings and the second aggregates metadata bindings. -/
abbrev TransformResult := List ImportDecl × List VarDecl × List VarDecl

/-- `ImportGlobArrayPlugin::build_module_items`: flattens a transform result
into module items — every generated import first, then each declaration of
the first group, then each declaration of the second group; an absent result
contributes nothing. -/
def build_module_items (tuple : Option TransformResult) : List ModuleItem :=
  match tuple with
  | none => []
  | some t =>
    t.1.map ModuleItem.moduleDeclImport
      ++ t.2.1.map ModuleItem.stmtDeclVar
      ++ t.2.2.map ModuleItem.stmtDeclVar

/-- `ImportGlobArrayPlugin::fold_module`: flat-maps the statement list,
expanding exactly the import declarations whose source starts with `.` or
`/` and satisfies the glob predicate, and keeping every other item as the
singleton of itself.  `is_glob` and `transform_import_decl` are the external
collaborators. -/
def fold_module (is_glob : String → Bool)
    (transform_import_decl : ImportDecl → Option TransformResult)
    (body : List ModuleItem) : List ModuleItem :=
  (body.map (fun item =>
    match item with
    | ModuleItem.moduleDeclImport import_decl =>
      if (import_decl.src.startsWith (".") || import_decl.src.startsWith ("/"))
          && is_glob import_decl.src then
        build_module_items (transform_import_decl import_decl)
      else [item]
    | _ => [item])).flatten

/-- `process_transform` from `lib.rs`: reads the filename context metadata;
when it is absent the `expect` aborts the transform, otherwise the program
is folded with a fresh plugin (counter 0, cwd `/cwd`).  The transformer is a
parameter taking the filename, standing for the plugin state it closes
over. -/
def process_transform (is_glob : String → Bool)
    (transform_import_decl : String → ImportDecl → Option TransformResult)
    (filename_metadata : Option String)
    (program : List ModuleItem) : PanicOr (List ModuleItem) :=
  match filename_metadata with
  | none => .panics
  | some file_name => .ok (fold_module is_glob (transform_import_decl file_name) program)

/-- `get_import_map_expr` from `utils.rs`: the object literal with the two
properties `absolutePath` and `importedPath` drawn from an `ImportPaths`. -/
def get_import_map_expr (import_paths : ImportPaths) : Expr :=
  Expr.object
    [("absolutePath", Expr.strLit import_paths.absolute_path),
     ("importedPath", Expr.strLit import_paths.imported_path)]

/-- `get_local_specifier_name` from `utils.rs`: the local binding name of
any specifier variant. -/
def get_local_specifier_name : ImportSpecifier → String
  | .defaultSpec l => l
  | .named l _ => l
  | .nspace l => l

/-- `is_specifier_import_meta_decl` from `utils.rs`: `none` unless the
specifier is named (`named()?`) with a written imported name (`imported?`),
otherwise whether that imported name equals `IMPORT_META_NAME`. -/
def is_specifier_import_meta_decl : ImportSpecifier → Option Bool
  | .named _ imported => do
    let export_name ← imported
    match export_name with
    | .identName sym => pure (decide (sym = IMPORT_META_NAME))
    | .strName v => pure (decide (v = IMPORT_META_NAME))
  | _ => none

/-- Modelled from the spec: how the caller of `is_specifier_import_meta_decl`
(the `transformer` module, absent from the inspected sources) classifies a
specifier.  Spec: "any named specifier importing exactly that name from a
glob source is treated as a metadata request rather than a value binding";
in the shorthand form the imported name is the local name. -/
def treated_as_import_meta (specifier : ImportSpecifier) : Bool :=
  match is_specifier_import_meta_decl specifier with
  | some b => b
  | none =>
    match specifier with
    | .named l none => decide (l = IMPORT_META_NAME)
    | _ => false

/-- The written-or-shorthand imported name of a named specifier (`none` for
default and namespace specifiers), as the spec's wording reads it. -/
def namedImportedName : ImportSpecifier → Option String
  | .named l none => some l
  | .named _ (some (.identName sym)) => some sym
  | .named _ (some (.strName v)) => some v
  | _ => none

/-- `to_var_decls` from `utils.rs`, with the `HashMap` embedded as the
association list of its entries in iteration order: each entry becomes one
`const` declaration with a single declarator naming the key and initialized
with the array literal of the collected element slots. -/
def to_var_decls (entries : List (Pat × List (Option Expr))) : List VarDecl :=
  entries.map (fun item =>
    { kind := VarDeclKind.constKind
      declare := false
      decls := [{ name := item.1
                  init := some (Expr.array item.2)
                  definite := false }] })

/-- `upsert_map` from `utils.rs`, on the association-list embedding of the
`HashMap` (keys unique): if the key is absent a fresh empty entry is
created, and the value is pushed onto the key's vector. -/
def upsert_map : List (Pat × List (Option Expr)) → Pat → Expr →
    List (Pat × List (Option Expr))
  | [], key, value => [(key, [some value])]
  | kv :: rest, key, value =>
    if kv.1 = key then (kv.1, kv.2 ++ [some value]) :: rest
    else kv :: upsert_map rest key value

/-- Lookup in the association-list embedding of the `HashMap`. -/
def map_get (m : List (Pat × List (Option Expr))) (key : Pat) :
    Option (List (Option Expr)) :=
  (m.find? (fun kv => kv.1 == key)).map (fun kv => kv.2)

/-- The qualification test of `fold_module`, as the claim words it: an import
declaration whose source specifier starts with `.` or `/` and for which the
glob predicate returns true. -/
def qualifies (is_glob : String → Bool) : ModuleItem → Bool
  | ModuleItem.moduleDeclImport d =>
    (d.src.startsWith (".") || d.src.startsWith ("/")) && is_glob d.src
  | _ => false

/-- C5: a present transform result is spliced as all generated imports, then
all first-group (value aggregate) constant declarations, then all
second-group (metadata aggregate) constant declarations; an absent result
yields the empty replacement span. -/
theorem build_module_items_order :
    build_module_items none = [] ∧
    ∀ (imps : List ImportDecl) (vals metas : List VarDecl),
      build_module_items (some (imps, vals, metas)) =
        imps.map ModuleItem.moduleDeclImport
          ++ vals.map ModuleItem.stmtDeclVar
          ++ metas.map ModuleItem.stmtDeclVar := by
  exact ⟨rfl, fun _ _ _ => rfl⟩

/-- C8: for any resolved paths, the metadata expression is an object literal
with exactly the two properties `absolutePath` and `importedPath`, holding
the resolver's strings, in that order. -/
theorem get_import_map_expr_props (p : ImportPaths) :
    get_import_map_expr p =
      Expr.object
        [("absolutePath", Expr.strLit p.absolute_path),
         ("importedPath", Expr.strLit p.imported_path)] ∧
    ∀ props, get_import_map_expr p = Expr.object props →
      props.length = 2 ∧ props.map Prod.fst = ["absolutePath", "importedPath"] := by
  refine ⟨rfl, fun props h => ?_⟩
  cases h
  exact ⟨rfl, rfl⟩

/-- C9: with the filename context metadata absent the transform aborts
before producing any output, and with it present the transform runs the fold
and returns a program. -/
theorem process_transform_requires_filename
    (is_glob : String → Bool)
    (tr : String → ImportDecl → Option TransformResult)
    (program : List ModuleItem) :
    process_transform is_glob tr none program = PanicOr.panics ∧
    ∀ file_name, process_transform is_glob tr (some file_name) program =
      PanicOr.ok (fold_module is_glob (tr file_name) program) := by
  exact ⟨rfl, fun _ => rfl⟩

/-- C10: `get_paths` aborts (the `unwrap` on `filename.parent()`) exactly
when the configured current-file path has no parent, i.e. its component
list is empty — the empty path or a bare root —, instead of reporting a
per-file `none`; with a parent present it always returns a (possibly empty)
per-file result. -/
theorem get_paths_requires_parent (cwd filename path : OsPath) :
    (get_paths cwd filename path = PanicOr.panics ↔ filename.comps = []) ∧
    (filename.comps = [] ↔ filename.parent = none) := by
  obtain ⟨r, cs⟩ := filename
  cases cs with
  | nil => simp [get_paths, OsPath.parent]
  | cons c cs =>
    constructor
    · constructor
      · intro h
        simp only [get_paths, OsPath.parent] at h
        cases h
      · intro h
        cases h
    · simp [OsPath.parent]

/-- C4 (the classifier of `utils.rs` together with its caller, the latter
modelled from the spec): a specifier is treated as a metadata request
exactly when it is a named specifier whose imported name — written, or the
local name in the shorthand form — equals the fixed string `_importMeta`;
default and namespace specifiers are never metadata requests.  Moreover the
modelled caller agrees with `is_specifier_import_meta_decl` whenever the
latter decides. -/
theorem import_meta_specifier_iff :
    (∀ specifier : ImportSpecifier,
      treated_as_import_meta specifier = true ↔
        namedImportedName specifier = some IMPORT_META_NAME) ∧
    (∀ specifier b, is_specifier_import_meta_decl specifier = some b →
      treated_as_import_meta specifier = b) := by
  constructor
  · intro specifier
    cases specifier with
    | defaultSpec l =>
      simp [treated_as_import_meta, is_specifier_import_meta_decl, namedImportedName]
    | nspace l =>
      simp [treated_as_import_meta, is_specifier_import_meta_decl, namedImportedName]
    | named l imported =>
      cases imported with
      | none =>
        simp [treated_as_import_meta, is_specifier_import_meta_decl, namedImportedName]
      | some e =>
        cases e with
        | identName sym =>
          simp [treated_as_import_meta, is_specifier_import_meta_decl,
            namedImportedName, Option.bind]
        | strName v =>
          simp [treated_as_import_meta, is_specifier_import_meta_decl,
            namedImportedName, Option.bind]
  · intro specifier b h
    simp [treated_as_import_meta, h]

/-- C7: the destination name used for grouping is the specifier's own local
(possibly renamed) binding name for every specifier variant — never its
imported name — and `upsert_map` files a slot under exactly the given key:
the key's vector gains the slot at its end and every other key's vector is
unchanged. -/
theorem grouping_uses_local_name :
    (∀ l, get_local_specifier_name (ImportSpecifier.defaultSpec l) = l) ∧
    (∀ l, get_local_specifier_name (ImportSpecifier.nspace l) = l) ∧
    (∀ l imported, get_local_specifier_name (ImportSpecifier.named l imported) = l) ∧
    (get_local_specifier_name
      (ImportSpecifier.named ("meta")
        (some (ModuleExportName.identName IMPORT_META_NAME))) = "meta") ∧
    (∀ m key value,
      map_get (upsert_map m key value) key =
        some ((map_get m key).getD [] ++ [some value]) ∧
      ∀ k, k ≠ key → map_get (upsert_map m key value) k = map_get m k) := by
  refine ⟨fun _ => rfl, fun _ => rfl, fun _ _ => rfl, rfl, fun m key value => ?_⟩
  induction m with
  | nil =>
    refine ⟨by simp [upsert_map, map_get], fun k hk => ?_⟩
    simp only [upsert_map, map_get, List.find?]
    simp [show (key == k) = false by simp [BEq.beq]; exact fun hc => hk hc.symm]
  | cons kv rest ih =>
    by_cases h : kv.1 = key
    · subst h
      refine ⟨?_, fun k hk => ?_⟩
      · simp [upsert_map, map_get]
      · simp only [upsert_map, if_pos rfl]
        simp [map_get, List.find?, show (kv.1 == k) = false by
          simp [BEq.beq]; exact fun hc => hk hc.symm]
    · refine ⟨?_, fun k hk => ?_⟩
      · simp only [upsert_map, if_neg h]
        simp only [map_get, List.find?, show (kv.1 == key) = false by
          simp [BEq.beq]; exact h]
        exact (ih).1
      · by_cases hkv : kv.1 = k
        · simp only [upsert_map, if_neg h]
          simp [map_get, List.find?, hkv]
        · simp only [upsert_map, if_neg h]
          simp only [map_get, List.find?, show (kv.1 == k) = false by
            simp [BEq.beq]; exact hkv]
          exact (ih).2 k hk

/-- Unfolding `fold_module` over the head statement: the head contributes
its expansion (for a qualifying import) or the singleton of itself. -/
theorem fold_module_cons (is_glob : String → Bool)
    (tr : ImportDecl → Option TransformResult)
    (item : ModuleItem) (rest : List ModuleItem) :
    fold_module is_glob tr (item :: rest) =
      (match item with
       | ModuleItem.moduleDeclImport d =>
         if (d.src.startsWith (".") || d.src.startsWith ("/")) && is_glob d.src then
           build_module_items (tr d)
         else [item]
       | _ => [item]) ++ fold_module is_glob tr rest := by
  simp [fold_module]

/-- C1: an item of the statement list is replaced by its expansion exactly
when it is an import declaration whose source starts with `.` or `/` and
satisfies the glob predicate; every other item appears in the output as
itself, in its original relative position — in particular a module whose
items all fail the test passes through unchanged. -/
theorem fold_module_expands_iff_qualifies
    (is_glob : String → Bool) (tr : ImportDecl → Option TransformResult)
    (body : List ModuleItem) :
    fold_module is_glob tr body =
      (body.map (fun item =>
        match item with
        | ModuleItem.moduleDeclImport d =>
          if qualifies is_glob item then build_module_items (tr d) else [item]
        | _ => [item])).flatten ∧
    ((∀ item ∈ body, qualifies is_glob item = false) →
      fold_module is_glob tr body = body) := by
  constructor
  · unfold fold_module
    exact congrArg List.flatten
      (List.map_congr_left (fun item _ => by cases item <;> rfl))
  · intro h
    induction body with
    | nil => rfl
    | cons item rest ih =>
      have hitem : qualifies is_glob item = false := h item (by simp)
      have ih' : fold_module is_glob tr rest = rest :=
        ih (fun i hi => h i (by simp [hi]))
      rw [fold_module_cons, ih']
      cases item with
      | moduleDeclImport d =>
        have hc : ((d.src.startsWith (".") || d.src.startsWith ("/"))
            && is_glob d.src) = false := hitem
        simp [hc]
      | otherModuleDecl t => rfl
      | stmtDeclVar v => rfl
      | otherStmt t => rfl

/-- C6's divergence witness: the two-key map built for a statement with two
destination bindings in the same group (for example the two value bindings
of `import x, * as y from` a glob source) has two valid `HashMap` iteration
orders — permutations of the same entries — and `to_var_decls` produces a
different declaration list for each, so the emitted output is not
determined by the input alone. -/
theorem to_var_decls_order_dependent :
    ([(Pat.ident ("files"), [some (Expr.identE ("_glob_imported1"))]),
      (Pat.ident ("meta"), [some (Expr.identE ("_glob_imported1"))])].Perm
      [(Pat.ident ("meta"), [some (Expr.identE ("_glob_imported1"))]),
       (Pat.ident ("files"), [some (Expr.identE ("_glob_imported1"))])]) ∧
    to_var_decls
        [(Pat.ident ("files"), [some (Expr.identE ("_glob_imported1"))]),
         (Pat.ident ("meta"), [some (Expr.identE ("_glob_imported1"))])] ≠
      to_var_decls
        [(Pat.ident ("meta"), [some (Expr.identE ("_glob_imported1"))]),
         (Pat.ident ("files"), [some (Expr.identE ("_glob_imported1"))])] := by
  constructor
  · exact List.Perm.swap _ _ _
  · intro h
    have h2 := congrArg
      (List.map (fun d => d.decls.map (fun dd => dd.name))) h
    simp [to_var_decls] at h2

/-- C2: with the current file's parent directory present, `get_paths`
returns a per-file result exactly when the matched path can be expressed
relative to `currentDir` (cwd joined with that parent) and both the
relative and the rebuilt absolute path are representable as valid text; on
success `absolutePath` is the text of `currentDir` joined with the relative
path and `importedPath` is the relative path verbatim when it starts with
`.`, otherwise `./` prepended to it; on failure the file is skipped with no
result. -/
theorem get_paths_resolution_spec (cwd filename path par : OsPath)
    (hp : filename.parent = some par) :
    ∃ res, get_paths cwd filename path = PanicOr.ok res ∧
      ((∃ r, res = some r) ↔
        (∃ rel s, path.stripBase (cwd.join par) = some rel ∧ rel.toStr = some s ∧
          (((cwd.join par).join (pathOfString s)).toStr).isSome)) ∧
      (∀ r, res = some r →
        ∃ rel s, path.stripBase (cwd.join par) = some rel ∧ rel.toStr = some s ∧
          ((cwd.join par).join (pathOfString s)).toStr = some r.absolute_path ∧
          r.imported_path =
            if s.startsWith (".") then s else ("./") ++ s) := by
  simp only [get_paths, hp]
  refine ⟨_, rfl, ?_, ?_⟩
  · cases hstrip : path.stripBase (cwd.join par) with
    | none => simp [hstrip]
    | some rel =>
      cases hrel : rel.toStr with
      | none => simp [hstrip, hrel]
      | some s =>
        cases habs : ((cwd.join par).join (pathOfString s)).toStr with
        | none => simp [hstrip, hrel, habs]
        | some a => simp [hstrip, hrel, habs]
  · intro r hr
    cases hstrip : path.stripBase (cwd.join par) with
    | none => simp [hstrip] at hr
    | some rel =>
      cases hrel : rel.toStr with
      | none => simp [hstrip, hrel] at hr
      | some s =>
        cases habs : ((cwd.join par).join (pathOfString s)).toStr with
        | none => simp [hstrip, hrel, habs] at hr
        | some a =>
          obtain ⟨ra, ri⟩ := r
          simp [hstrip, hrel, habs] at hr
          obtain ⟨h1, h2⟩ := hr
          subst h1
          subst h2
          exact ⟨rel, s, rfl, hrel, habs, rfl⟩

/-- `Nat.toDigitsCore` pushes onto its accumulator: the accumulator can be
split off. -/
theorem toDigitsCore_shift (b : Nat) :
    ∀ (f n : Nat) (acc : List Char),
      Nat.toDigitsCore b f n acc = Nat.toDigitsCore b f n [] ++ acc := by
  intro f
  induction f with
  | zero => intro n acc; simp [Nat.toDigitsCore]
  | succ f ih =>
    intro n acc
    simp only [Nat.toDigitsCore]
    by_cases h : n / b = 0
    · simp [h]
    · simp only [h, if_false]
      rw [ih (n / b) (Nat.digitChar (n % b) :: acc),
        ih (n / b) [Nat.digitChar (n % b)]]
      simp

/-- On a positive number, `Nat.toDigitsCore` with enough fuel produces the
reversed decimal digit characters. -/
theorem toDigitsCore_eq_digits :
    ∀ (n : Nat), 0 < n → ∀ f, n ≤ f →
      Nat.toDigitsCore 10 f n [] = ((Nat.digits 10 n).map Nat.digitChar).reverse := by
  intro n
  induction n using Nat.strong_induction_on with
  | _ n ih =>
    intro hn f hf
    match f with
    | 0 => omega
    | f + 1 =>
      have hd : Nat.digits 10 n = n % 10 :: Nat.digits 10 (n / 10) :=
        Nat.digits_def' (by norm_num) hn
      simp only [Nat.toDigitsCore]
      by_cases h : n / 10 = 0
      · simp only [h, if_true, hd, Nat.digits_zero]
        simp
      · have hlt : n / 10 < n := Nat.div_lt_self hn (by norm_num)
        simp only [h, if_false]
        rw [toDigitsCore_shift, ih (n / 10) hlt (Nat.pos_of_ne_zero h) f (by omega), hd]
        simp

/-- `Nat.digitChar` is injective on decimal digits. -/
theorem digitChar_inj_lt : ∀ d, d < 10 → ∀ e, e < 10 →
    Nat.digitChar d = Nat.digitChar e → d = e := by decide

/-- Mapping `Nat.digitChar` over decimal digit lists is injective. -/
theorem map_digitChar_inj :
    ∀ (l1 l2 : List Nat), (∀ d ∈ l1, d < 10) → (∀ d ∈ l2, d < 10) →
      l1.map Nat.digitChar = l2.map Nat.digitChar → l1 = l2 := by
  intro l1
  induction l1 with
  | nil => intro l2 _ _ h; cases l2 with
    | nil => rfl
    | cons b bs => simp at h
  | cons a as ih =>
    intro l2 h1 h2 h
    cases l2 with
    | nil => simp at h
    | cons b bs =>
      simp only [List.map_cons, List.cons.injEq] at h
      have ha := h1 a (by simp)
      have hb := h2 b (by simp)
      have hab : a = b := digitChar_inj_lt a ha b hb h.1
      rw [hab, ih bs (fun d hd => h1 d (by simp [hd])) (fun d hd => h2 d (by simp [hd])) h.2]

/-- The decimal rendering `Nat.repr` is injective on positive numbers. -/
theorem Nat_repr_inj_pos {m n : Nat} (hm : 0 < m) (hn : 0 < n)
    (h : Nat.repr m = Nat.repr n) : m = n := by
  have h2 : Nat.toDigits 10 m = Nat.toDigits 10 n := by
    have hd := congrArg String.data h
    simpa [Nat.repr, List.asString] using hd
  rw [Nat.toDigits, Nat.toDigits,
    toDigitsCore_eq_digits m hm (m + 1) (by omega),
    toDigitsCore_eq_digits n hn (n + 1) (by omega)] at h2
  have h3 := List.reverse_injective h2
  have h4 := map_digitChar_inj _ _
    (fun d hd => Nat.digits_lt_base (by norm_num) hd)
    (fun d hd => Nat.digits_lt_base (by norm_num) hd) h3
  have h5 := congrArg (Nat.ofDigits 10) h4
  simpa [Nat.ofDigits_digits] using h5

/-- Appending to a fixed front string is injective. -/
theorem append_left_cancel_str {p a b : String} (h : p ++ a = p ++ b) : a = b := by
  have hd := congrArg String.data h
  simp only [String.data_append] at hd
  exact String.ext (List.append_cancel_left hd)

/-- Closed form for iterated `next_id` calls: starting at counter `c`, the
`i`-th call (0-indexed) returns the prefix followed by `c + i + 1`, and the
counter advances by one per call. -/
theorem run_next_ids_closed (p : String) (c : Nat) :
    ∀ k, run_next_ids p c k =
      ((List.range k).map (fun i => p ++ Nat.repr (c + i + 1)), c + k) := by
  intro k
  induction k with
  | zero => simp [run_next_ids]
  | succ k ih =>
    simp [run_next_ids, ih, next_id, List.range_succ]
    omega

/-- C3: within one transform invocation the allocator, called with a fixed
prefix, returns the prefix concatenated with a counter that starts at 1
(the plugin initializes the shared counter to 0) and increases by one per
call; consequently the identifiers of distinct calls are pairwise distinct,
however many calls the invocation makes — in particular across several
glob-import statements, which share the one counter. -/
theorem next_id_ids_unique (p : String) (k : Nat) :
    (run_next_ids p 0 k).1 = (List.range k).map (fun i => p ++ Nat.repr (i + 1)) ∧
    (run_next_ids p 0 k).2 = k ∧
    ((run_next_ids p 0 k).1).Nodup := by
  have hc := run_next_ids_closed p 0 k
  have hinj : Function.Injective (fun i : Nat => p ++ Nat.repr (i + 1)) := by
    intro i j hij
    have h1 := append_left_cancel_str hij
    have h2 := Nat_repr_inj_pos (by omega) (by omega) h1
    omega
  refine ⟨?_, ?_, ?_⟩
  · rw [hc]
    simp
  · rw [hc]
    simp
  · rw [hc]
    simp only [Nat.zero_add]
    exact (List.nodup_range k).map hinj

/-- Example working directory `/cwd` (the value hard-wired in
`process_transform`). -/
def cwd_example : OsPath := ⟨true, [OsStr.valid ("cwd")]⟩

/-- Example current file `src/index.js`. -/
def filename_example : OsPath :=
  ⟨false, [OsStr.valid ("src"), OsStr.valid ("index.js")]⟩

/-- The parent directory of `filename_example`. -/
def parent_example : OsPath := ⟨false, [OsStr.valid ("src")]⟩

/-- Example matched file `/cwd/src/data/a.json`. -/
def matched_example : OsPath :=
  ⟨true, [OsStr.valid ("cwd"), OsStr.valid ("src"),
    OsStr.valid ("data"), OsStr.valid ("a.json")]⟩

/-- Witness for the path-resolver specification at the concrete input
`/cwd`, `src/index.js`, `/cwd/src/data/a.json`. -/
theorem get_paths_resolution_spec_witness :
    ∃ res, get_paths cwd_example filename_example matched_example = PanicOr.ok res ∧
      ((∃ r, res = some r) ↔
        (∃ rel s,
          matched_example.stripBase (cwd_example.join parent_example) = some rel ∧
          rel.toStr = some s ∧
          (((cwd_example.join parent_example).join (pathOfString s)).toStr).isSome)) ∧
      (∀ r, res = some r →
        ∃ rel s,
          matched_example.stripBase (cwd_example.join parent_example) = some rel ∧
          rel.toStr = some s ∧
          ((cwd_example.join parent_example).join (pathOfString s)).toStr =
            some r.absolute_path ∧
          r.imported_path =
            if s.startsWith (".") then s else ("./") ++ s) :=
  get_paths_resolution_spec cwd_example filename_example matched_example
    parent_example (by decide)
